import Mathlib

/-!
Verification of the 6TiSCH simulator (SimEngine/Mote.py, SimEngine/Propagation.py)
against its natural-language specification.  The Python code is shallowly embedded:
Python dicts become association lists keyed by `Nat`, motes are referred to by their
integer id, and the relevant methods become pure Lean functions over explicit state.
-/

namespace TischSim

/-- Lookup in an association list, modelling a Python dict read. -/
def mapLookup {α : Type} : List (Nat × α) → Nat → Option α
  | [], _ => none
  | p :: rest, k => if p.1 = k then some p.2 else mapLookup rest k

/-- Remove a key from an association list, modelling a Python dict pop. -/
def mapErase {α : Type} : List (Nat × α) → Nat → List (Nat × α)
  | [], _ => []
  | p :: rest, k => if p.1 = k then mapErase rest k else p :: mapErase rest k

/-- Set a key in an association list, modelling a Python dict assignment. -/
def mapSet {α : Type} (m : List (Nat × α)) (k : Nat) (v : α) : List (Nat × α) :=
  (k, v) :: mapErase m k

theorem mapLookup_erase {α : Type} (m : List (Nat × α)) (k ts : Nat) :
    mapLookup (mapErase m k) ts = if ts = k then none else mapLookup m ts := by
  induction m with
  | nil => simp [mapErase, mapLookup]
  | cons p rest ih =>
      by_cases hpk : p.1 = k
      · have he : mapErase (p :: rest) k = mapErase rest k := by simp [mapErase, hpk]
        rw [he, ih]
        by_cases htk : ts = k
        · simp [htk]
        · have hpt : ¬ p.1 = ts := fun hh => htk (hh ▸ hpk)
          simp [htk, mapLookup, hpt]
      · have he : mapErase (p :: rest) k = p :: mapErase rest k := by simp [mapErase, hpk]
        rw [he]
        by_cases hpt : p.1 = ts
        · have htk : ¬ ts = k := fun hh => hpk (hpt.trans hh)
          simp [mapLookup, hpt, htk]
        · simp [mapLookup, hpt, ih]

theorem mapLookup_set_self {α : Type} (m : List (Nat × α)) (k : Nat) (v : α) :
    mapLookup (mapSet m k v) k = some v := by
  simp [mapSet, mapLookup]

theorem mapLookup_set_ne {α : Type} (m : List (Nat × α)) (k ts : Nat) (v : α)
    (h : ts ≠ k) : mapLookup (mapSet m k v) ts = mapLookup m ts := by
  have hk : ¬ k = ts := fun hh => h hh.symm
  simp [mapSet, mapLookup, hk, mapLookup_erase, h]

theorem mapErase_of_lookup_none {α : Type} (m : List (Nat × α)) (k : Nat)
    (h : mapLookup m k = none) : mapErase m k = m := by
  induction m with
  | nil => rfl
  | cons p rest ih =>
      by_cases hpk : p.1 = k
      · simp [mapLookup, hpk] at h
      · simp [mapLookup, hpk] at h
        simp [mapErase, hpk, ih h]

theorem mem_mapErase {α : Type} (m : List (Nat × α)) (k : Nat) (p : Nat × α)
    (h : p ∈ mapErase m k) : p ∈ m := by
  induction m with
  | nil => simp [mapErase] at h
  | cons q rest ih =>
      by_cases hqk : q.1 = k
      · simp [mapErase, hqk] at h
        exact List.mem_cons_of_mem q (ih h)
      · simp [mapErase, hqk] at h
        rcases h with h | h
        · exact h ▸ List.mem_cons_self q rest
        · exact List.mem_cons_of_mem q (ih h)

/-- Cell direction (Mote.DIR_TX, Mote.DIR_RX, Mote.DIR_SHARED). -/
inductive Dir
  | TX
  | RX
  | SHARED
deriving DecidableEq, Repr

/-- A schedule cell, as built by Mote._tsch_addCells and Mote.boot (debug fields
elided; they are append-only logs never read by the claims). -/
structure Cell where
  ch : Nat
  dir : Dir
  neighbor : Option Nat
  numTx : Nat := 0
  numTxAck : Nat := 0
  numRx : Nat := 0
  history : List Nat := []
  rxDetectedCollision : Bool := false
deriving DecidableEq, Repr

/-- A mote's schedule: Python dict indexed by timeslot. -/
abbrev Sched := List (Nat × Cell)

/-- Mote.NUM_MAX_HISTORY. -/
def NUM_MAX_HISTORY : Nat := 32

/-- Mote.NUM_SUFFICIENT_TX. -/
def NUM_SUFFICIENT_TX : Nat := 10

/-- Mote.TSCH_QUEUE_SIZE. -/
def TSCH_QUEUE_SIZE : Nat := 50

/-- One timeslot of Mote._tsch_removeCells: the cell is popped only when the slot is
present and its neighbor field equals the given neighbor. -/
def removeCellStep (neighbor : Nat) (s : Sched) (ts : Nat) : Sched :=
  match mapLookup s ts with
  | some c => if c.neighbor = some neighbor then mapErase s ts else s
  | none => s

/-- Mote._tsch_removeCells restricted to its schedule mutation (the per-direction
neighbor counters are not needed by the claims). -/
def tsch_removeCells (neighbor : Nat) (tsList : List Nat) (sched : Sched) : Sched :=
  tsList.foldl (removeCellStep neighbor) sched

theorem lookup_removeCellStep_self (n : Nat) (s : Sched) (ts : Nat) :
    mapLookup (removeCellStep n s ts) ts =
      match mapLookup s ts with
      | some c => if c.neighbor = some n then none else some c
      | none => none := by
  unfold removeCellStep
  cases hl : mapLookup s ts with
  | none => exact hl
  | some c =>
      by_cases hn : c.neighbor = some n
      · simp only [if_pos hn]
        rw [mapLookup_erase]
        simp
      · simp only [if_neg hn]
        exact hl

theorem lookup_removeCellStep_other (n : Nat) (s : Sched) (t ts : Nat) (hts : ts ≠ t) :
    mapLookup (removeCellStep n s t) ts = mapLookup s ts := by
  unfold removeCellStep
  cases hl : mapLookup s t with
  | none => rfl
  | some c =>
      by_cases hn : c.neighbor = some n
      · simp only [if_pos hn]
        rw [mapLookup_erase, if_neg hts]
      · simp only [if_neg hn]

theorem lookup_removeCellStep_cases (n : Nat) (s : Sched) (t ts : Nat) :
    mapLookup (removeCellStep n s t) ts = mapLookup s ts ∨
    mapLookup (removeCellStep n s t) ts = none := by
  by_cases hts : ts = t
  · subst hts
    rw [lookup_removeCellStep_self]
    cases hl : mapLookup s ts with
    | none => simp
    | some c =>
        by_cases hn : c.neighbor = some n
        · simp [hn]
        · simp [hn]
  · exact Or.inl (lookup_removeCellStep_other n s t ts hts)

theorem lookup_removeCells_cases (n : Nat) (tsList : List Nat) (s : Sched) (ts : Nat) :
    mapLookup (tsch_removeCells n tsList s) ts = mapLookup s ts ∨
    mapLookup (tsch_removeCells n tsList s) ts = none := by
  induction tsList generalizing s with
  | nil => exact Or.inl rfl
  | cons t rest ih =>
      have hstep := lookup_removeCellStep_cases n s t ts
      have hrec := ih (removeCellStep n s t)
      unfold tsch_removeCells at hrec ⊢
      simp only [List.foldl_cons]
      rcases hrec with h | h
      · rcases hstep with h2 | h2
        · exact Or.inl (h.trans h2)
        · exact Or.inr (h.trans h2)
      · exact Or.inr h

theorem removeCellStep_preserves_other (n : Nat) (s : Sched) (t ts : Nat) (c : Cell)
    (hl : mapLookup s ts = some c) (hne : c.neighbor ≠ some n) :
    mapLookup (removeCellStep n s t) ts = some c := by
  by_cases hts : ts = t
  · subst hts
    rw [lookup_removeCellStep_self]
    simp only [hl]
    simp only [if_neg hne]
  · rw [lookup_removeCellStep_other n s t ts hts]
    exact hl

/-- Cells whose neighbor field differs from the removal target are never removed by
Mote._tsch_removeCells. -/
theorem removeCells_preserves_other (n : Nat) (tsList : List Nat) (s : Sched)
    (ts : Nat) (c : Cell) (hl : mapLookup s ts = some c) (hne : c.neighbor ≠ some n) :
    mapLookup (tsch_removeCells n tsList s) ts = some c := by
  induction tsList generalizing s with
  | nil => exact hl
  | cons t rest ih =>
      unfold tsch_removeCells
      simp only [List.foldl_cons]
      exact ih (removeCellStep n s t) (removeCellStep_preserves_other n s t ts c hl hne)

theorem removeCellStep_clears_self (n : Nat) (s : Sched) (ts : Nat) (c : Cell)
    (h : mapLookup (removeCellStep n s ts) ts = some c) : c.neighbor ≠ some n := by
  rw [lookup_removeCellStep_self] at h
  cases hl : mapLookup s ts with
  | none =>
      simp only [hl] at h
      exact Option.noConfusion h
  | some c2 =>
      simp only [hl] at h
      by_cases hn : c2.neighbor = some n
      · rw [if_pos hn] at h
        exact Option.noConfusion h
      · rw [if_neg hn] at h
        obtain rfl := Option.some.inj h
        exact hn

theorem removeCells_step_keeps_clear (n : Nat) (s : Sched) (t ts : Nat)
    (h : ∀ c : Cell, mapLookup s ts = some c → c.neighbor ≠ some n) :
    ∀ c : Cell, mapLookup (removeCellStep n s t) ts = some c → c.neighbor ≠ some n := by
  intro c hc
  rcases lookup_removeCellStep_cases n s t ts with h2 | h2
  · exact h c (h2 ▸ hc)
  · exact absurd (h2 ▸ hc) (by rw [h2] at hc; exact fun _ => Option.noConfusion hc)

theorem removeCells_fold_keeps_clear (n : Nat) (rest : List Nat) (s : Sched) (ts : Nat)
    (h : ∀ c : Cell, mapLookup s ts = some c → c.neighbor ≠ some n) :
    ∀ c : Cell, mapLookup (tsch_removeCells n rest s) ts = some c → c.neighbor ≠ some n := by
  induction rest generalizing s with
  | nil => exact h
  | cons t rest2 ih =>
      unfold tsch_removeCells
      simp only [List.foldl_cons]
      exact ih (removeCellStep n s t) (removeCells_step_keeps_clear n s t ts h)

/-- After Mote._tsch_removeCells, no timeslot of the removal list still carries a cell
assigned to the removal target. -/
theorem removeCells_clears (n : Nat) (tsList : List Nat) (s : Sched) (ts : Nat)
    (hmem : ts ∈ tsList) :
    ∀ c : Cell, mapLookup (tsch_removeCells n tsList s) ts = some c →
      c.neighbor ≠ some n := by
  induction tsList generalizing s with
  | nil => exact absurd hmem (List.not_mem_nil ts)
  | cons t rest ih =>
      unfold tsch_removeCells
      simp only [List.foldl_cons]
      by_cases h : ts = t
      · subst h
        exact removeCells_fold_keeps_clear n rest (removeCellStep n s ts) ts
          (fun c hc => removeCellStep_clears_self n s ts c hc)
      · rcases List.mem_cons.mp hmem with h2 | h2
        · exact absurd h2 h
        · exact ih (removeCellStep n s t) h2

/-- Mote.txDone's per-cell statistics update at the active slot: numTxAck and history
gain an entry on ACK or NACK, history gains a 0 on plain failure.  The source appends
to the stored history list and never truncates it. -/
def txDone_updateCell (c : Cell) (isACKed isNACKed : Bool) : Cell :=
  if isACKed then
    { c with numTxAck := c.numTxAck + 1, history := c.history ++ [1] }
  else if isNACKed then
    { c with numTxAck := c.numTxAck + 1, history := c.history ++ [1] }
  else
    { c with history := c.history ++ [0] }

/-- Python negative slicing l[-n:], used by every reader of a cell's history. -/
def lastN {α : Type} (l : List α) (n : Nat) : List α := l.drop (l.length - n)

/-- The read cell['history'][-NUM_MAX_HISTORY:] performed by
Mote._top_txhousekeeping_per_neighbor when deriving PDR values. -/
def recentHistory (c : Cell) : List Nat := lastN c.history NUM_MAX_HISTORY

/-- A fresh cell as created by Mote._tsch_addCells (statistics zero, empty history). -/
def freshCell (ch : Nat) (dir : Dir) (neighbor : Option Nat) : Cell :=
  { ch := ch, dir := dir, neighbor := neighbor }

/-- Iterated acknowledged txDone outcomes on one cell. -/
def txDoneIter (n : Nat) (c : Cell) : Cell :=
  (List.range n).foldl (fun acc _ => txDone_updateCell acc true false) c

/-- C2 counterexample: after 33 acknowledged transmissions on one TX cell the stored
history field holds 33 entries; Mote.txDone only appends and never truncates the list
to NUM_MAX_HISTORY = 32, so the claimed invariant fails at this reachable cell state. -/
theorem C2_history_unbounded_counterexample :
    ¬ ((txDoneIter 33 (freshCell 0 Dir.TX (some 1))).history.length ≤ NUM_MAX_HISTORY) := by
  decide

/-- C2 (amended): txDone appends exactly one outcome per transmission to the stored
history, which therefore grows without bound; consumers read only the last
NUM_MAX_HISTORY = 32 samples through the history[-32:] slice, so PDR is always derived
from at most 32 samples. -/
theorem C2_history_amended (c : Cell) (isACKed isNACKed : Bool) :
    (txDone_updateCell c isACKed isNACKed).history.length = c.history.length + 1 ∧
    (recentHistory (txDone_updateCell c isACKed isNACKed)).length ≤ NUM_MAX_HISTORY := by
  constructor
  · unfold txDone_updateCell
    by_cases ha : isACKed = true <;> by_cases hn : isNACKed = true <;> simp [ha, hn]
  · unfold recentHistory lastN
    rw [List.length_drop]
    omega

/-- Packet type tag (Mote.APP_TYPE_DATA / Mote.APP_TYPE_CONTROL). -/
inductive PType
  | DATA
  | CONTROL
deriving DecidableEq, Repr

/-- A TSCH packet restricted to the fields the claims read; pid distinguishes
packets the way object identity does in the source. -/
structure Packet where
  pid : Nat
  ptype : PType
  retriesLeft : Nat
deriving DecidableEq, Repr

/-- Mote.txDone, DATA branch under isNACKed (lines 1580-1595) and identically under
neither ACK nor NACK (lines 1722-1736): locate the packet in txQueue, decrement
retriesLeft if positive, and when retriesLeft has reached 0 remove the packet and
increment droppedMacRetries ONLY when len(txQueue) == TSCH_QUEUE_SIZE. -/
def txDone_dataNack (txQueue : List Packet) (pktToSend : Packet)
    (droppedMacRetries : Nat) : List Packet × Nat :=
  let i := txQueue.findIdx (fun p => p == pktToSend)
  match txQueue[i]? with
  | none => (txQueue, droppedMacRetries)
  | some p =>
    let p2 := if p.retriesLeft > 0 then { p with retriesLeft := p.retriesLeft - 1 } else p
    let q2 := txQueue.set i p2
    if p2.retriesLeft = 0 then
      if q2.length = TSCH_QUEUE_SIZE then
        (q2.erase p2, droppedMacRetries + 1)
      else
        (q2, droppedMacRetries)
    else
      (q2, droppedMacRetries)

/-- The failing input for C3: a data queue holding one DATA packet on its last retry. -/
def c3Packet : Packet := { pid := 0, ptype := PType.DATA, retriesLeft := 1 }

/-- C3: evaluating txDone's DATA retry handling at a queue holding the single packet
c3Packet whose last retry was NACKed: retriesLeft reaches 0, yet the packet is NOT
removed and droppedMacRetries is NOT incremented, because the drop is guarded by
len(txQueue) == TSCH_QUEUE_SIZE = 50.  This contradicts the code's own comment
("drop packet if retried too many time") and the droppedMacRetries documentation
("packets dropped because more than TSCH_MAXTXRETRIES MAC retries"). -/
theorem C3_exhausted_packet_not_dropped :
    txDone_dataNack [c3Packet] c3Packet 0 =
      ([{ pid := 0, ptype := PType.DATA, retriesLeft := 0 }], 0) ∧
    TSCH_QUEUE_SIZE = 50 := by
  constructor
  · rfl
  · rfl

/-- Mote.rxDone CONTROL sequence handling (lines 1949-1959): default the stored counter
for the source to 0, compare the received sequence number against stored + 1, then
overwrite the stored counter with the received number; the 6top operation is dispatched
only when the frame is addressed to this mote and the check passed (and the current ASN
is not in ignorePacket, modelled by the asnIgnored flag).  Returns the dispatch flag
and the updated counter map. -/
def rxControlSeqCheck (seqWith : List (Nat × Nat)) (src seq : Nat)
    (asnIgnored dmacIsSelf : Bool) : Bool × List (Nat × Nat) :=
  let stored := (mapLookup seqWith src).getD 0
  let allGood := (seq == stored + 1) && !asnIgnored
  (dmacIsSelf && allGood, mapSet seqWith src seq)

/-- C9: a received CONTROL frame whose sequence number is not the stored counter plus
one is not dispatched, yet the stored sequence counter for that source is still set to
the received sequence number. -/
theorem C9_seq_mismatch_drops (seqWith : List (Nat × Nat)) (src seq : Nat)
    (asnIgnored dmacIsSelf : Bool)
    (h : seq ≠ (mapLookup seqWith src).getD 0 + 1) :
    (rxControlSeqCheck seqWith src seq asnIgnored dmacIsSelf).1 = false ∧
    mapLookup (rxControlSeqCheck seqWith src seq asnIgnored dmacIsSelf).2 src
      = some seq := by
  constructor
  · unfold rxControlSeqCheck
    simp [h]
  · unfold rxControlSeqCheck
    exact mapLookup_set_self seqWith src seq

/-- C9 witness: counter at 5, frame carries sequence number 9. -/
theorem C9_seq_mismatch_drops_witness :
    (9 ≠ (mapLookup [(1, 5)] 1).getD 0 + 1) ∧
    ((rxControlSeqCheck [(1, 5)] 1 9 false true).1 = false ∧
      mapLookup (rxControlSeqCheck [(1, 5)] 1 9 false true).2 1 = some 9) :=
  ⟨by decide, C9_seq_mismatch_drops [(1, 5)] 1 9 false true (by decide)⟩

/-- The SHARED cell installed at boot: channel 0, no neighbor (Mote.boot). -/
def sharedCell : Cell :=
  { ch := 0, dir := Dir.SHARED, neighbor := none }

/-- The loop body of Mote.boot: one SHARED cell per key. -/
def installSharedKeys (keys : List Nat) (sched : Sched) : Sched :=
  keys.foldl (fun s ts => mapSet s ts sharedCell) sched

/-- Mote.boot's schedule initialisation: SHARED cells at offsets
i * (slotframeLength / numSharedSlots) for i in range(numSharedSlots). -/
def bootInstallShared (numSharedSlots slotframeLength : Nat) (sched : Sched) : Sched :=
  installSharedKeys
    ((List.range numSharedSlots).map (fun i => i * (slotframeLength / numSharedSlots)))
    sched

theorem installSharedKeys_cons (a : Nat) (rest : List Nat) (sched : Sched) :
    installSharedKeys (a :: rest) sched
      = installSharedKeys rest (mapSet sched a sharedCell) := rfl

theorem installSharedKeys_lookup_notMem (keys : List Nat) (sched : Sched) (ts : Nat)
    (h : ts ∉ keys) :
    mapLookup (installSharedKeys keys sched) ts = mapLookup sched ts := by
  induction keys generalizing sched with
  | nil => rfl
  | cons a rest ih =>
      have hne : ts ≠ a := fun hh => h (hh ▸ List.mem_cons_self a rest)
      have hrest : ts ∉ rest := fun hh => h (List.mem_cons_of_mem a hh)
      rw [installSharedKeys_cons, ih (mapSet sched a sharedCell) hrest]
      exact mapLookup_set_ne sched a ts sharedCell hne

theorem installSharedKeys_lookup_mem (keys : List Nat) (sched : Sched) (ts : Nat)
    (hnd : keys.Nodup) (h : ts ∈ keys) :
    mapLookup (installSharedKeys keys sched) ts = some sharedCell := by
  induction keys generalizing sched with
  | nil => exact absurd h (List.not_mem_nil ts)
  | cons a rest ih =>
      rw [installSharedKeys_cons]
      rcases List.mem_cons.mp h with h1 | h1
      · subst h1
        have hnotin : ts ∉ rest := (List.nodup_cons.mp hnd).1
        rw [installSharedKeys_lookup_notMem rest _ ts hnotin]
        exact mapLookup_set_self sched ts sharedCell
      · exact ih (mapSet sched a sharedCell) (List.nodup_cons.mp hnd).2 h1

theorem mem_installSharedKeys (keys : List Nat) (sched : Sched) (p : Nat × Cell)
    (h : p ∈ installSharedKeys keys sched) :
    p ∈ sched ∨ (p.1 ∈ keys ∧ p.2 = sharedCell) := by
  induction keys generalizing sched with
  | nil => exact Or.inl h
  | cons a rest ih =>
      rw [installSharedKeys_cons] at h
      rcases ih (mapSet sched a sharedCell) h with h1 | h1
      · rcases List.mem_cons.mp h1 with h2 | h2
        · subst h2
          exact Or.inr ⟨List.mem_cons_self a rest, rfl⟩
        · exact Or.inl (mem_mapErase sched a p h2)
      · exact Or.inr ⟨List.mem_cons_of_mem a h1.1, h1.2⟩

theorem length_installSharedKeys (keys : List Nat) (sched : Sched)
    (hnd : keys.Nodup) (hfresh : ∀ k ∈ keys, mapLookup sched k = none) :
    (installSharedKeys keys sched).length = sched.length + keys.length := by
  induction keys generalizing sched with
  | nil => rfl
  | cons a rest ih =>
      rw [installSharedKeys_cons]
      have ha : mapLookup sched a = none := hfresh a (List.mem_cons_self a rest)
      have hset : (mapSet sched a sharedCell).length = sched.length + 1 := by
        unfold mapSet
        rw [mapErase_of_lookup_none sched a ha]
        simp
      have hfresh2 : ∀ k ∈ rest, mapLookup (mapSet sched a sharedCell) k = none := by
        intro k hk
        have hka : k ≠ a := fun hh => (List.nodup_cons.mp hnd).1 (hh ▸ hk)
        rw [mapLookup_set_ne sched a k sharedCell hka]
        exact hfresh k (List.mem_cons_of_mem a hk)
      rw [ih (mapSet sched a sharedCell) (List.nodup_cons.mp hnd).2 hfresh2, hset]
      simp [List.length_cons]
      omega

/-- C7: at boot a mote installs exactly numSharedSlots SHARED cells, each on channel 0
with neighbor None, exactly at offsets i * (slotframeLength / numSharedSlots) for
i < numSharedSlots; and Mote._tsch_removeCells — the only schedule-removal primitive,
invoked by top_cell_deletion_sender/receiver always with an actual neighbor mote —
never removes a cell whose neighbor field is None, so the SHARED cells persist for the
entire run. -/
theorem C7_shared_slots (k s : Nat) (h1 : 0 < k) (h2 : k ≤ s) :
    (∀ i, i < k →
      mapLookup (bootInstallShared k s []) (i * (s / k)) = some sharedCell) ∧
    (∀ p ∈ bootInstallShared k s [],
      (∃ i, i < k ∧ p.1 = i * (s / k)) ∧ p.2 = sharedCell) ∧
    (bootInstallShared k s []).length = k ∧
    (∀ (n : Nat) (tsList : List Nat) (sched : Sched) (ts : Nat) (c : Cell),
      mapLookup sched ts = some c → c.neighbor = none →
      mapLookup (tsch_removeCells n tsList sched) ts = some c) := by
  have hd : 0 < s / k := Nat.div_pos h2 h1
  have hinj : Function.Injective (fun i : Nat => i * (s / k)) := by
    intro a b hab
    exact Nat.eq_of_mul_eq_mul_right hd hab
  have hnd : ((List.range k).map (fun i => i * (s / k))).Nodup :=
    List.Nodup.map hinj (List.nodup_range k)
  refine ⟨?_, ?_, ?_, ?_⟩
  · intro i hi
    exact installSharedKeys_lookup_mem _ [] _ hnd
      (List.mem_map_of_mem _ (List.mem_range.mpr hi))
  · intro p hp
    rcases mem_installSharedKeys _ [] p hp with h | h
    · exact absurd h (List.not_mem_nil p)
    · obtain ⟨hmem, hcell⟩ := h
      obtain ⟨i, hi, hieq⟩ := List.mem_map.mp hmem
      exact ⟨⟨i, List.mem_range.mp hi, hieq.symm⟩, hcell⟩
  · unfold bootInstallShared
    rw [length_installSharedKeys _ [] hnd (fun k2 hk2 => rfl)]
    simp
  · intro n tsList sched ts c hc hn
    exact removeCells_preserves_other n tsList sched ts c hc
      (fun hh => Option.noConfusion (hn ▸ hh))

/-- C7 witness at numSharedSlots = 2, slotframeLength = 5. -/
theorem C7_shared_slots_witness :
    0 < 2 ∧ 2 ≤ 5 ∧
    ((∀ i, i < 2 →
        mapLookup (bootInstallShared 2 5 []) (i * (5 / 2)) = some sharedCell) ∧
     (∀ p ∈ bootInstallShared 2 5 [],
        (∃ i, i < 2 ∧ p.1 = i * (5 / 2)) ∧ p.2 = sharedCell) ∧
     (bootInstallShared 2 5 []).length = 2 ∧
     (∀ (n : Nat) (tsList : List Nat) (sched : Sched) (ts : Nat) (c : Cell),
       mapLookup sched ts = some c → c.neighbor = none →
       mapLookup (tsch_removeCells n tsList sched) ts = some c)) :=
  ⟨by decide, by decide, C7_shared_slots 2 5 (by decide) (by decide)⟩

/-- Mote._choose_channel's candidate list k: channels j < numChans with
reserve[ts][j] == False in both the caller's and the neighbor's reserve tables. -/
def choose_channel_candidates (numChans : Nat) (selfRes neighRes : Nat → Nat → Bool)
    (ts : Nat) : List Nat :=
  (List.range numChans).filter (fun j => !selfRes ts j && !neighRes ts j)

/-- Mote._choose_channel returns k[0] after random.shuffle(k); the shuffle is modelled
by quantifying over any permutation of the candidates, and head? = none models the
IndexError that k[0] raises on an empty candidate list. -/
def choose_channel (shuffled : List Nat) : Option Nat :=
  shuffled.head?

/-- C10: whenever some channel below numChans is unreserved at slot ts in both reserve
tables, _choose_channel returns such a channel regardless of shuffle order; when every
channel is reserved at ts in one of the tables, the candidate list is empty and k[0]
faults (modelled as head? = none), so the error case is unreachable exactly under the
precondition. -/
theorem C10_choose_channel (numChans ts : Nat) (selfRes neighRes : Nat → Nat → Bool)
    (shuffled : List Nat)
    (hperm : shuffled.Perm (choose_channel_candidates numChans selfRes neighRes ts)) :
    ((∃ j, j < numChans ∧ selfRes ts j = false ∧ neighRes ts j = false) →
      ∃ j, choose_channel shuffled = some j ∧ j < numChans ∧
        selfRes ts j = false ∧ neighRes ts j = false) ∧
    ((∀ j, j < numChans → selfRes ts j = true ∨ neighRes ts j = true) →
      choose_channel shuffled = none) := by
  constructor
  · rintro ⟨j, hj, hs, hn⟩
    have hmem : j ∈ choose_channel_candidates numChans selfRes neighRes ts := by
      unfold choose_channel_candidates
      refine List.mem_filter.mpr ⟨List.mem_range.mpr hj, ?_⟩
      simp [hs, hn]
    cases hsh : shuffled with
    | nil =>
        exfalso
        rw [hsh] at hperm
        have hempty := hperm.symm.eq_nil
        rw [hempty] at hmem
        exact List.not_mem_nil j hmem
    | cons a rest =>
        have hamem : a ∈ choose_channel_candidates numChans selfRes neighRes ts := by
          rw [hsh] at hperm
          exact hperm.mem_iff.mp (List.mem_cons_self a rest)
        obtain ⟨har, hcond⟩ := List.mem_filter.mp hamem
        simp only [Bool.and_eq_true, Bool.not_eq_true'] at hcond
        exact ⟨a, by simp [choose_channel, hsh], List.mem_range.mp har,
          hcond.1, hcond.2⟩
  · intro hall
    have hempty : choose_channel_candidates numChans selfRes neighRes ts = [] := by
      refine List.eq_nil_iff_forall_not_mem.mpr ?_
      intro j hjmem
      obtain ⟨hr, hc⟩ := List.mem_filter.mp hjmem
      simp only [Bool.and_eq_true, Bool.not_eq_true'] at hc
      rcases hall j (List.mem_range.mp hr) with h | h
      · rw [hc.1] at h
        exact Bool.noConfusion h
      · rw [hc.2] at h
        exact Bool.noConfusion h
    have hnil : shuffled = [] := List.Perm.eq_nil (hempty ▸ hperm)
    rw [hnil]
    rfl

/-- C10 witness: 2 channels, channel 0 reserved in the caller's table, channel 1 free
in both, shuffle taken as the identity permutation. -/
theorem C10_choose_channel_witness :
    (choose_channel_candidates 2 (fun _ j => j == 0) (fun _ _ => false) 3).Perm
      (choose_channel_candidates 2 (fun _ j => j == 0) (fun _ _ => false) 3) ∧
    (((∃ j, j < 2 ∧ (fun (_ j : Nat) => j == 0) 3 j = false ∧
          (fun (_ _ : Nat) => false) 3 j = false) →
        ∃ j, choose_channel
            (choose_channel_candidates 2 (fun _ j => j == 0) (fun _ _ => false) 3)
          = some j ∧ j < 2 ∧ (fun (_ j : Nat) => j == 0) 3 j = false ∧
          (fun (_ _ : Nat) => false) 3 j = false) ∧
      ((∀ j, j < 2 → (fun (_ j : Nat) => j == 0) 3 j = true ∨
          (fun (_ _ : Nat) => false) 3 j = true) →
        choose_channel
            (choose_channel_candidates 2 (fun _ j => j == 0) (fun _ _ => false) 3)
          = none)) :=
  ⟨List.Perm.refl _,
    C10_choose_channel 2 3 (fun _ j => j == 0) (fun _ _ => false) _ (List.Perm.refl _)⟩

/-- Mote.RPL_MAX_ETX, as the cap applied to ETX in Mote._otf_housekeeping. -/
def RPL_MAX_ETX : ℚ := 4

/-- Mote._otf_housekeeping's required cells: ETX capped at RPL_MAX_ETX, then
reqCells = ceil(portion * genTraffic * etx).  Python float arithmetic is modelled
over the rationals. -/
def otfReqCells (portion genTraffic etx : ℚ) : Int :=
  Int.ceil (portion * genTraffic * (if etx > RPL_MAX_ETX then RPL_MAX_ETX else etx))

/-- Mote._otf_housekeeping's threshold = ceil(portion * otfThreshold). -/
def otfThresholdCells (portion otfThreshold : ℚ) : Int :=
  Int.ceil (portion * otfThreshold)

/-- Outcome of one parent's pass in Mote._otf_housekeeping. -/
inductive OtfAction
  | add (numCells : Int)
  | remove (numCells : Int)
  | idle
deriving DecidableEq, Repr

/-- Branch structure of Mote._otf_housekeeping (lines 655-714): add
reqCells - nowCells + (threshold+1)/2 when nowCells < reqCells, else remove
nowCells - reqCells - (threshold+1)/2 when reqCells < nowCells - threshold, else
nothing. -/
def otfDecision (reqCells threshold nowCells : Int) : OtfAction :=
  if nowCells < reqCells then
    OtfAction.add (reqCells - nowCells + (threshold + 1) / 2)
  else if reqCells < nowCells - threshold then
    OtfAction.remove (nowCells - reqCells - (threshold + 1) / 2)
  else
    OtfAction.idle

/-- C6: with req = ceil(portion*genTraffic*ETX) (ETX capped at 4) and
threshold = ceil(portion*otfThreshold), OTF housekeeping triggers a 6top add of exactly
req - now + (threshold+1)/2 cells when now < req, and triggers a 6top remove of exactly
now - req - (threshold+1)/2 cells if and only if req < now - threshold (portion and
otfThreshold are nonnegative, so threshold is nonnegative and the remove guard excludes
the add branch). -/
theorem C6_otf_decision (portion genTraffic etx otfThreshold : ℚ) (nowCells : Int)
    (hp : 0 ≤ portion) (ho : 0 ≤ otfThreshold) :
    (nowCells < otfReqCells portion genTraffic etx →
      otfDecision (otfReqCells portion genTraffic etx)
          (otfThresholdCells portion otfThreshold) nowCells
        = OtfAction.add (otfReqCells portion genTraffic etx - nowCells
            + (otfThresholdCells portion otfThreshold + 1) / 2)) ∧
    (otfDecision (otfReqCells portion genTraffic etx)
          (otfThresholdCells portion otfThreshold) nowCells
        = OtfAction.remove (nowCells - otfReqCells portion genTraffic etx
            - (otfThresholdCells portion otfThreshold + 1) / 2)
      ↔ otfReqCells portion genTraffic etx
          < nowCells - otfThresholdCells portion otfThreshold) := by
  have hthr0 : 0 ≤ otfThresholdCells portion otfThreshold :=
    Int.ceil_nonneg (mul_nonneg hp ho)
  constructor
  · intro h
    unfold otfDecision
    rw [if_pos h]
  · constructor
    · intro h
      unfold otfDecision at h
      by_cases h1 : nowCells < otfReqCells portion genTraffic etx
      · rw [if_pos h1] at h
        exact absurd h (by simp)
      · rw [if_neg h1] at h
        by_cases h2 : otfReqCells portion genTraffic etx
            < nowCells - otfThresholdCells portion otfThreshold
        · exact h2
        · rw [if_neg h2] at h
          exact absurd h (by simp)
    · intro h
      have h1 : ¬ nowCells < otfReqCells portion genTraffic etx := by omega
      unfold otfDecision
      rw [if_neg h1, if_pos h]

/-- C6 witness: portion 1, generated traffic 3 pkts/cycle, raw ETX 5 (capped to 4),
otfThreshold 1, one current cell: req = 12, threshold = 1, shortfall branch adds
12 - 1 + 1 = 12 cells. -/
theorem C6_otf_decision_witness :
    (0:ℚ) ≤ 1 ∧ (0:ℚ) ≤ 1 ∧ otfReqCells 1 3 5 = 12 ∧ otfThresholdCells 1 1 = 1 ∧
    ((1 < otfReqCells 1 3 5 →
      otfDecision (otfReqCells 1 3 5) (otfThresholdCells 1 1) 1
        = OtfAction.add (otfReqCells 1 3 5 - 1 + (otfThresholdCells 1 1 + 1) / 2)) ∧
    (otfDecision (otfReqCells 1 3 5) (otfThresholdCells 1 1) 1
        = OtfAction.remove (1 - otfReqCells 1 3 5 - (otfThresholdCells 1 1 + 1) / 2)
      ↔ otfReqCells 1 3 5 < 1 - otfThresholdCells 1 1)) :=
  ⟨by norm_num, by norm_num,
    by norm_num [otfReqCells, RPL_MAX_ETX],
    by norm_num [otfThresholdCells],
    C6_otf_decision 1 3 5 1 1 (by norm_num) (by norm_num)⟩

/-- One entry of Propagation.transmissions (type, data and payload omitted; smac and
dmac are mote ids). -/
structure Transmission where
  channel : Nat
  smac : Nat
  dmac : Nat
deriving DecidableEq, Repr

/-- The interferer list of Propagation.propagate (line 141): senders of all other
transmissions on the same channel as T. -/
def interferersOf (transmissions : List Transmission) (t : Transmission) : List Nat :=
  (transmissions.filter (fun t2 => decide (t2 ≠ t) && (t2.channel == t.channel))).map
    (fun t2 => t2.smac)

/-- The lock-on loop of Propagation.propagate (lines 151-155): starting from the
desired transmitter, switch to any interferer that arrives strictly earlier than the
current lock and whose RSSI at the destination exceeds the destination's minRssi.
arrival is each transmitter's calcTime offset and rssiAtDmac the destination's RSSI
reading, abstracted as integers: the code only compares them. -/
def lockOnScan (arrival : Nat → Int) (rssiAtDmac : Nat → Int) (minRssi : Int) :
    Nat → List Nat → Nat
  | lockOn, [] => lockOn
  | lockOn, itfr :: rest =>
      if arrival itfr < arrival lockOn ∧ rssiAtDmac itfr > minRssi then
        lockOnScan arrival rssiAtDmac minRssi itfr rest
      else
        lockOnScan arrival rssiAtDmac minRssi lockOn rest

/-- Per-receiver outcome of Propagation.propagate for the destined mote: only when the
lock stayed on the desired transmitter is the packet subject to the SINR-to-PDR
delivery draw (deliverDraw models pdr >= failure); otherwise the slot is handled as a
collision lock and the desired packet is lost. -/
inductive RxOutcome
  | delivered
  | failedDraw
  | collisionLock
deriving DecidableEq, Repr

def propagateReceiverOutcome (lockOn smac : Nat) (deliverDraw : Bool) : RxOutcome :=
  if lockOn = smac then
    (if deliverDraw then RxOutcome.delivered else RxOutcome.failedDraw)
  else
    RxOutcome.collisionLock

theorem lockOnScan_spec (arrival : Nat → Int) (rssi : Nat → Int) (minRssi : Int)
    (l : List Nat) (acc : Nat) :
    (lockOnScan arrival rssi minRssi acc l = acc ∨
      (lockOnScan arrival rssi minRssi acc l ∈ l ∧
        rssi (lockOnScan arrival rssi minRssi acc l) > minRssi ∧
        arrival (lockOnScan arrival rssi minRssi acc l) < arrival acc)) ∧
    arrival (lockOnScan arrival rssi minRssi acc l) ≤ arrival acc ∧
    (∀ j ∈ l, rssi j > minRssi →
      arrival (lockOnScan arrival rssi minRssi acc l) ≤ arrival j) := by
  induction l generalizing acc with
  | nil => exact ⟨Or.inl rfl, le_refl _, fun j hj => absurd hj (List.not_mem_nil j)⟩
  | cons x xs ih =>
      by_cases hc : arrival x < arrival acc ∧ rssi x > minRssi
      · have hstep : lockOnScan arrival rssi minRssi acc (x :: xs)
            = lockOnScan arrival rssi minRssi x xs := by
          simp only [lockOnScan]
          rw [if_pos hc]
        obtain ⟨h1, h2, h3⟩ := ih x
        rw [hstep]
        refine ⟨?_, ?_, ?_⟩
        · refine Or.inr ?_
          rcases h1 with h | h
          · rw [h]
            exact ⟨List.mem_cons_self x xs, hc.2, hc.1⟩
          · exact ⟨List.mem_cons_of_mem x h.1, h.2.1, lt_trans h.2.2 hc.1⟩
        · exact le_trans h2 (le_of_lt hc.1)
        · intro j hj hrj
          rcases List.mem_cons.mp hj with hjx | hjx
          · subst hjx
            exact h2
          · exact h3 j hjx hrj
      · have hstep : lockOnScan arrival rssi minRssi acc (x :: xs)
            = lockOnScan arrival rssi minRssi acc xs := by
          simp only [lockOnScan]
          rw [if_neg hc]
        obtain ⟨h1, h2, h3⟩ := ih acc
        rw [hstep]
        refine ⟨?_, ?_, ?_⟩
        · rcases h1 with h | h
          · exact Or.inl h
          · exact Or.inr ⟨List.mem_cons_of_mem x h.1, h.2.1, h.2.2⟩
        · exact h2
        · intro j hj hrj
          rcases List.mem_cons.mp hj with hjx | hjx
          · subst hjx
            have hnlt : ¬ arrival j < arrival acc := fun hl => hc ⟨hl, hrj⟩
            exact le_trans h2 (not_lt.mp hnlt)
          · exact h3 j hjx hrj

/-- C5: in Propagation.propagate, for a transmission T whose destination is listening
on T's channel, lockOn is the same-channel interferer with RSSI above the
destination's minRssi having the earliest arrival time whenever such an interferer
arrives before T's transmitter; if no above-threshold interferer arrives earlier,
lockOn is T's own transmitter; and only in that case is the desired packet subject to
the normal SINR-to-PDR delivery draw. -/
theorem C5_lockOn (arrival : Nat → Int) (rssiAtDmac : Nat → Int) (minRssi : Int)
    (transmissions : List Transmission) (t : Transmission) :
    ((∃ i ∈ interferersOf transmissions t,
        rssiAtDmac i > minRssi ∧ arrival i < arrival t.smac) →
      lockOnScan arrival rssiAtDmac minRssi t.smac (interferersOf transmissions t)
          ∈ interferersOf transmissions t ∧
        rssiAtDmac (lockOnScan arrival rssiAtDmac minRssi t.smac
          (interferersOf transmissions t)) > minRssi ∧
        arrival (lockOnScan arrival rssiAtDmac minRssi t.smac
          (interferersOf transmissions t)) < arrival t.smac ∧
        (∀ j ∈ interferersOf transmissions t, rssiAtDmac j > minRssi →
          arrival (lockOnScan arrival rssiAtDmac minRssi t.smac
            (interferersOf transmissions t)) ≤ arrival j)) ∧
    ((∀ i ∈ interferersOf transmissions t,
        rssiAtDmac i > minRssi → arrival t.smac ≤ arrival i) →
      lockOnScan arrival rssiAtDmac minRssi t.smac (interferersOf transmissions t)
        = t.smac) ∧
    (∀ draw : Bool,
      propagateReceiverOutcome
          (lockOnScan arrival rssiAtDmac minRssi t.smac (interferersOf transmissions t))
          t.smac draw ≠ RxOutcome.collisionLock
        ↔ lockOnScan arrival rssiAtDmac minRssi t.smac (interferersOf transmissions t)
            = t.smac) := by
  obtain ⟨h1, h2, h3⟩ :=
    lockOnScan_spec arrival rssiAtDmac minRssi (interferersOf transmissions t) t.smac
  refine ⟨?_, ?_, ?_⟩
  · rintro ⟨i, hi, hri, hai⟩
    have hlock_le : arrival (lockOnScan arrival rssiAtDmac minRssi t.smac
        (interferersOf transmissions t)) ≤ arrival i := h3 i hi hri
    have hlt : arrival (lockOnScan arrival rssiAtDmac minRssi t.smac
        (interferersOf transmissions t)) < arrival t.smac := lt_of_le_of_lt hlock_le hai
    rcases h1 with h | h
    · exfalso
      rw [h] at hlt
      exact lt_irrefl _ hlt
    · exact ⟨h.1, h.2.1, hlt, h3⟩
  · intro hall
    rcases h1 with h | h
    · exact h
    · exfalso
      have hge : arrival t.smac ≤ arrival (lockOnScan arrival rssiAtDmac minRssi t.smac
          (interferersOf transmissions t)) := hall _ h.1 h.2.1
      exact absurd (lt_of_le_of_lt hge h.2.2) (lt_irrefl _)
  · intro draw
    unfold propagateReceiverOutcome
    by_cases hl : lockOnScan arrival rssiAtDmac minRssi t.smac
        (interferersOf transmissions t) = t.smac
    · rw [if_pos hl]
      cases draw with
      | true => simp [hl]
      | false => simp [hl]
    · rw [if_neg hl]
      simp [hl]

/-- C5 witness: T on channel 5 from mote 0 to mote 1, interferer mote 2 on the same
channel with RSSI 5 above minRssi 0, arriving at time 3 before T's transmitter at 10. -/
theorem C5_lockOn_witness :
    (∃ i ∈ interferersOf
        [{ channel := 5, smac := 0, dmac := 1 }, { channel := 5, smac := 2, dmac := 1 }]
        { channel := 5, smac := 0, dmac := 1 },
      (fun _ : Nat => (5 : Int)) i > 0 ∧
      (fun n : Nat => if n = 2 then (3 : Int) else 10) i
        < (fun n : Nat => if n = 2 then (3 : Int) else 10)
            (Transmission.smac { channel := 5, smac := 0, dmac := 1 })) ∧
    (lockOnScan (fun n : Nat => if n = 2 then (3 : Int) else 10)
        (fun _ : Nat => (5 : Int)) 0
        (Transmission.smac { channel := 5, smac := 0, dmac := 1 })
        (interferersOf
          [{ channel := 5, smac := 0, dmac := 1 }, { channel := 5, smac := 2, dmac := 1 }]
          { channel := 5, smac := 0, dmac := 1 })
      ∈ interferersOf
          [{ channel := 5, smac := 0, dmac := 1 }, { channel := 5, smac := 2, dmac := 1 }]
          { channel := 5, smac := 0, dmac := 1 } ∧
      (fun _ : Nat => (5 : Int))
        (lockOnScan (fun n : Nat => if n = 2 then (3 : Int) else 10)
          (fun _ : Nat => (5 : Int)) 0
          (Transmission.smac { channel := 5, smac := 0, dmac := 1 })
          (interferersOf
            [{ channel := 5, smac := 0, dmac := 1 }, { channel := 5, smac := 2, dmac := 1 }]
            { channel := 5, smac := 0, dmac := 1 })) > 0 ∧
      (fun n : Nat => if n = 2 then (3 : Int) else 10)
        (lockOnScan (fun n : Nat => if n = 2 then (3 : Int) else 10)
          (fun _ : Nat => (5 : Int)) 0
          (Transmission.smac { channel := 5, smac := 0, dmac := 1 })
          (interferersOf
            [{ channel := 5, smac := 0, dmac := 1 }, { channel := 5, smac := 2, dmac := 1 }]
            { channel := 5, smac := 0, dmac := 1 }))
        < (fun n : Nat => if n = 2 then (3 : Int) else 10)
            (Transmission.smac { channel := 5, smac := 0, dmac := 1 }) ∧
      (∀ j ∈ interferersOf
          [{ channel := 5, smac := 0, dmac := 1 }, { channel := 5, smac := 2, dmac := 1 }]
          { channel := 5, smac := 0, dmac := 1 },
        (fun _ : Nat => (5 : Int)) j > 0 →
        (fun n : Nat => if n = 2 then (3 : Int) else 10)
          (lockOnScan (fun n : Nat => if n = 2 then (3 : Int) else 10)
            (fun _ : Nat => (5 : Int)) 0
            (Transmission.smac { channel := 5, smac := 0, dmac := 1 })
            (interferersOf
              [{ channel := 5, smac := 0, dmac := 1 },
               { channel := 5, smac := 2, dmac := 1 }]
              { channel := 5, smac := 0, dmac := 1 }))
          ≤ (fun n : Nat => if n = 2 then (3 : Int) else 10) j)) :=
  ⟨by decide,
    (C5_lockOn (fun n : Nat => if n = 2 then (3 : Int) else 10) (fun _ : Nat => (5 : Int))
      0 [{ channel := 5, smac := 0, dmac := 1 }, { channel := 5, smac := 2, dmac := 1 }]
      { channel := 5, smac := 0, dmac := 1 }).1 (by decide)⟩

/-- Propagation._dBmTomW: translate dBm to mW, 10^(dBm/10). -/
noncomputable def dBmTomW (dBm : ℝ) : ℝ := (10 : ℝ) ^ (dBm / 10)

/-- Propagation._mWTodBm: translate mW to dBm, 10*log10(mW). -/
noncomputable def mWTodBm (mW : ℝ) : ℝ := 10 * Real.logb 10 mW

/-- Propagation._computeSINR: signal = dBmTomW(RSSI(src,dst)) - noise with
noise = dBmTomW(destination noise power); return -10 dB when the signal is negative;
otherwise accumulate per-interferer interference clamped at 0 in a running loop and
return mWTodBm(signal / (totalInterference + noise)).  The RSSI readings enter as the
source-to-destination value and the list of interferer-to-destination values. -/
noncomputable def computeSINR (rssiSrcDst noisepower : ℝ) (interfererRssi : List ℝ) :
    ℝ :=
  if dBmTomW rssiSrcDst - dBmTomW noisepower < 0 then
    (-10 : ℝ)
  else
    mWTodBm ((dBmTomW rssiSrcDst - dBmTomW noisepower)
      / (interfererRssi.foldl
          (fun acc r =>
            acc + (if dBmTomW r - dBmTomW noisepower < 0 then 0
                   else dBmTomW r - dBmTomW noisepower)) 0
        + dBmTomW noisepower))

theorem interference_foldl_eq_sum (noise : ℝ) (l : List ℝ) (a : ℝ) :
    l.foldl (fun acc r =>
        acc + (if dBmTomW r - noise < 0 then 0 else dBmTomW r - noise)) a
      = a + (l.map (fun r => max 0 (dBmTomW r - noise))).sum := by
  induction l generalizing a with
  | nil => simp
  | cons x xs ih =>
      simp only [List.foldl_cons, List.map_cons, List.sum_cons]
      rw [ih]
      have hmax : (if dBmTomW x - noise < 0 then (0:ℝ) else dBmTomW x - noise)
          = max 0 (dBmTomW x - noise) := by
        by_cases h : dBmTomW x - noise < 0
        · rw [if_pos h, max_eq_left (le_of_lt h)]
        · rw [if_neg h, max_eq_right (not_lt.mp h)]
      rw [hmax]
      ring

/-- C8: _computeSINR returns -10 dB whenever dBmToMw(RSSI(src,dst)) - dBmToMw(noise)
is negative, and otherwise returns mWToDbm(S / (I + noise)) where
S = dBmToMw(RSSI(src,dst)) - dBmToMw(noise), noise = dBmToMw(destination noise power),
and I is the sum over interferers of max(0, dBmToMw(RSSI(itfr,dst)) - noise). -/
theorem C8_computeSINR (rssiSrcDst noisepower : ℝ) (interfererRssi : List ℝ) :
    computeSINR rssiSrcDst noisepower interfererRssi
      = if dBmTomW rssiSrcDst - dBmTomW noisepower < 0 then (-10 : ℝ)
        else
          mWTodBm ((dBmTomW rssiSrcDst - dBmTomW noisepower)
            / ((interfererRssi.map
                (fun r => max 0 (dBmTomW r - dBmTomW noisepower))).sum
              + dBmTomW noisepower)) := by
  unfold computeSINR
  by_cases h : dBmTomW rssiSrcDst - dBmTomW noisepower < 0
  · rw [if_pos h, if_pos h]
  · rw [if_neg h, if_neg h, interference_foldl_eq_sum, zero_add]

/-- Kind of a pending 6top transaction ("moteRequest" on the initiator,
"parentAdds" on the responder). -/
inductive TxKind
  | moteRequest
  | parentAdds
deriving DecidableEq, Repr

/-- The pendingTransaction record of Mote.py: kind, peer id, optionally the installed
cells (timeslot, channel, direction), and the sequence number at creation. -/
structure PendingTx where
  kind : TxKind
  neighbor : Nat
  cells : Option (List (Nat × Nat × Dir))
  sequenceNum : Nat
deriving DecidableEq, Repr

/-- Mote.transactionTimeout. -/
def transactionTimeout : Nat := 20

/-- The slice of a mote's state read and written by the 6top request/abort path. -/
structure TopState where
  schedule : Sched
  pendingTransaction : Option PendingTx
  transactionRetries : Nat
  requestTriggered : List (Nat × Bool)
  seqWithNeighbor : List (Nat × Nat)
  transactionAborted : Nat
deriving DecidableEq, Repr

/-- Mote._top_abort_transaction: when a transaction is pending, roll back its recorded
cells through _tsch_removeCells (the recorded direction only selects which neighbor
counter is decremented, and the counters are not modelled) and clear the peer's
requestTriggered flag; in every case reset transactionRetries, clear
pendingTransaction and increment the transactionAborted statistic. -/
def top_abort_transaction (st : TopState) : TopState :=
  let st1 :=
    match st.pendingTransaction with
    | some pt =>
        let st2 :=
          match pt.cells with
          | some cs =>
              if cs.isEmpty then st
              else { st with schedule :=
                tsch_removeCells pt.neighbor (cs.map Prod.fst) st.schedule }
          | none => st
        { st2 with requestTriggered := mapSet st2.requestTriggered pt.neighbor false }
    | none => st
  { st1 with
      transactionRetries := 0
      pendingTransaction := none
      transactionAborted := st1.transactionAborted + 1 }

/-- The request tail of Mote._top_cell_reservation_request on the queued
(settings.queuing != 0) path: return unless the peer is request-triggerable and has a
sequence-number entry; otherwise set requestTriggered[neighbor], record a moteRequest
pendingTransaction carrying the current sequence number, and hand the CONTROL frame to
top_add_request, whose synchronous effect (_app_schedule_sendControl) increments the
sequence number for the peer. -/
def top_request_proceed (st : TopState) (neighbor : Nat) : TopState :=
  if mapLookup st.requestTriggered neighbor = some true
      ∨ mapLookup st.seqWithNeighbor neighbor = none then
    st
  else
    { st with
        requestTriggered := mapSet st.requestTriggered neighbor true
        pendingTransaction := some
          { kind := TxKind.moteRequest, neighbor := neighbor, cells := none,
            sequenceNum := (mapLookup st.seqWithNeighbor neighbor).getD 0 }
        seqWithNeighbor := mapSet st.seqWithNeighbor neighbor
          ((mapLookup st.seqWithNeighbor neighbor).getD 0 + 1) }

/-- One tick of Mote._top_cell_reservation_request (queued path): while a transaction
is pending the retry counter is incremented; when the incremented counter reaches
transactionTimeout the mote aborts and falls through into a fresh request, otherwise
the call returns; with no pending transaction it goes straight to the request. -/
def top_cell_reservation_request (st : TopState) (neighbor : Nat) : TopState :=
  match st.pendingTransaction with
  | some _ =>
      if st.transactionRetries + 1 = transactionTimeout then
        top_request_proceed
          (top_abort_transaction
            { st with transactionRetries := st.transactionRetries + 1 })
          neighbor
      else
        { st with transactionRetries := st.transactionRetries + 1 }
  | none => top_request_proceed st neighbor

theorem top_abort_transaction_spec (st : TopState) (pt : PendingTx)
    (hp : st.pendingTransaction = some pt) :
    (top_abort_transaction st).pendingTransaction = none ∧
    (top_abort_transaction st).transactionRetries = 0 ∧
    (top_abort_transaction st).transactionAborted = st.transactionAborted + 1 ∧
    mapLookup (top_abort_transaction st).requestTriggered pt.neighbor = some false ∧
    (∀ cs, pt.cells = some cs → ∀ e ∈ cs, ∀ c : Cell,
      mapLookup (top_abort_transaction st).schedule e.1 = some c →
        c.neighbor ≠ some pt.neighbor) := by
  refine ⟨rfl, rfl, ?_, ?_, ?_⟩
  · cases hcs : pt.cells with
    | none => simp [top_abort_transaction, hp, hcs]
    | some cs =>
        by_cases hemp : cs.isEmpty
        · simp [top_abort_transaction, hp, hcs, hemp]
        · simp [top_abort_transaction, hp, hcs, hemp]
  · cases hcs : pt.cells with
    | none => simp [top_abort_transaction, hp, hcs, mapLookup_set_self]
    | some cs =>
        by_cases hemp : cs.isEmpty
        · simp [top_abort_transaction, hp, hcs, hemp, mapLookup_set_self]
        · simp [top_abort_transaction, hp, hcs, hemp, mapLookup_set_self]
  · intro cs2 hcs2 e he c hc
    have hemp : cs2.isEmpty = false := by
      cases cs2 with
      | nil => exact absurd he (List.not_mem_nil e)
      | cons a l => rfl
    have hsched : (top_abort_transaction st).schedule
        = tsch_removeCells pt.neighbor (cs2.map Prod.fst) st.schedule := by
      simp [top_abort_transaction, hp, hcs2, hemp]
    rw [hsched] at hc
    exact removeCells_clears pt.neighbor (cs2.map Prod.fst) st.schedule e.1
      (List.mem_map_of_mem Prod.fst he) c hc

/-- The state used to refute C4: an initiator 19 ticks into a pending transaction with
mote 1. -/
def c4State : TopState :=
  { schedule := []
    pendingTransaction := some
      { kind := TxKind.moteRequest, neighbor := 1, cells := none, sequenceNum := 3 }
    transactionRetries := 19
    requestTriggered := [(1, true)]
    seqWithNeighbor := [(1, 3)]
    transactionAborted := 0 }

/-- C4 counterexample: on the tick where transactionRetries reaches
transactionTimeout = 20 the abort does run (transactionAborted goes to 1), but the very
same call then falls through into a fresh request, so at the end of the tick
pendingTransaction is a new moteRequest (not None) and requestTriggered[1] is True
again — contradicting the claimed post-state. -/
theorem C4_abort_tick_counterexample :
    c4State.transactionRetries + 1 = transactionTimeout ∧
    (top_cell_reservation_request c4State 1).transactionAborted = 1 ∧
    (top_cell_reservation_request c4State 1).pendingTransaction ≠ none ∧
    mapLookup (top_cell_reservation_request c4State 1).requestTriggered 1
      = some true := by
  decide

/-- C4 (amended): every tick with a pending transaction increments transactionRetries
(and otherwise leaves the state untouched); on the tick where the counter reaches
transactionTimeout = 20 the mote aborts — every cell recorded in
pendingTransaction.cells is removed from the schedule, the aborted peer's
requestTriggered is cleared, transactionRetries resets, pendingTransaction becomes None
and transactionAborted grows by exactly 1 — after which the same tick continues into a
fresh request (top_request_proceed), which can immediately re-arm
requestTriggered[neighbor] and a new moteRequest pendingTransaction; the claimed
post-state therefore holds after the abort step, not necessarily at the end of the
tick. -/
theorem C4_abort_amended (st : TopState) (neighbor : Nat) (pt : PendingTx)
    (hp : st.pendingTransaction = some pt) :
    (st.transactionRetries + 1 ≠ transactionTimeout →
      top_cell_reservation_request st neighbor
        = { st with transactionRetries := st.transactionRetries + 1 }) ∧
    (st.transactionRetries + 1 = transactionTimeout →
      top_cell_reservation_request st neighbor
          = top_request_proceed
              (top_abort_transaction
                { st with transactionRetries := st.transactionRetries + 1 }) neighbor ∧
      (top_abort_transaction
          { st with transactionRetries := st.transactionRetries + 1 }).pendingTransaction
        = none ∧
      (top_abort_transaction
          { st with transactionRetries := st.transactionRetries + 1 }).transactionRetries
        = 0 ∧
      (top_abort_transaction
          { st with transactionRetries := st.transactionRetries + 1 }).transactionAborted
        = st.transactionAborted + 1 ∧
      mapLookup (top_abort_transaction
          { st with transactionRetries := st.transactionRetries + 1 }).requestTriggered
          pt.neighbor = some false ∧
      (∀ cs, pt.cells = some cs → ∀ e ∈ cs, ∀ c : Cell,
        mapLookup (top_abort_transaction
            { st with transactionRetries := st.transactionRetries + 1 }).schedule e.1
          = some c → c.neighbor ≠ some pt.neighbor)) := by
  have hp1 : ({ st with transactionRetries := st.transactionRetries + 1 }
      : TopState).pendingTransaction = some pt := hp
  constructor
  · intro h
    unfold top_cell_reservation_request
    simp only [hp]
    rw [if_neg h]
  · intro h
    obtain ⟨a1, a2, a3, a4, a5⟩ := top_abort_transaction_spec
      { st with transactionRetries := st.transactionRetries + 1 } pt hp1
    refine ⟨?_, a1, a2, a3, a4, a5⟩
    unfold top_cell_reservation_request
    simp only [hp]
    rw [if_pos h]

/-- The state used to witness C4's amended theorem: a responder transaction with one
recorded cell, 9 ticks in. -/
def c4AbortState : TopState :=
  { schedule := [(7, { ch := 2, dir := Dir.RX, neighbor := some 1 })]
    pendingTransaction := some
      { kind := TxKind.parentAdds, neighbor := 1,
        cells := some [(7, 2, Dir.RX)], sequenceNum := 4 }
    transactionRetries := 9
    requestTriggered := [(1, false)]
    seqWithNeighbor := []
    transactionAborted := 2 }

/-- C4 witness: the amended theorem applied at c4AbortState, discharging both the
pending hypothesis and the sub-timeout tick hypothesis concretely. -/
theorem C4_abort_amended_witness :
    c4AbortState.pendingTransaction
      = some { kind := TxKind.parentAdds, neighbor := 1,
               cells := some [(7, 2, Dir.RX)], sequenceNum := 4 } ∧
    c4AbortState.transactionRetries + 1 ≠ transactionTimeout ∧
    top_cell_reservation_request c4AbortState 1
      = { c4AbortState with
            transactionRetries := c4AbortState.transactionRetries + 1 } :=
  ⟨rfl, by decide,
    (C4_abort_amended c4AbortState 1
      { kind := TxKind.parentAdds, neighbor := 1,
        cells := some [(7, 2, Dir.RX)], sequenceNum := 4 } rfl).1 (by decide)⟩

/-- The state touched by a 6top confirmation CONTROL frame: the receiving mote's
(the responder's) schedule, the confirming neighbor's (the initiator's) schedule, the
responder's cellsAllocToNeighbor record for that neighbor, and both pendingTransaction
fields. -/
structure ConfState where
  selfSched : Sched
  neighSched : Sched
  cellsAlloc : List Nat
  selfPending : Option PendingTx
  neighPending : Option PendingTx
deriving DecidableEq, Repr

/-- The removal-list computation of the confirmation branch of Mote.rxDone: slots of
the reconciliation set that are in mySched for peerId but absent from otherSched. -/
def confRemoveList (mySched otherSched : Sched) (peerId : Nat) (cells : List Nat) :
    List Nat :=
  cells.filter (fun ts =>
    match mapLookup mySched ts with
    | some c => (mapLookup otherSched ts).isNone && (c.neighbor == some peerId)
    | none => false)

/-- The confirmation branch of Mote.rxDone (lines 1972-1989).  data0 is the confirmed
timeslot list carried by the frame; selfId is the receiving (responder) mote and
neighId the confirming initiator.  Only when the confirmed list has the same length as
the recorded allocation AND differs from it does the reconciliation run: over
list(set(data[0] + cellsAllocToNeighbor)) — modelled as dedup of the concatenation,
the removals being order-insensitive — slots held by exactly one side for the other
mote are removed from that side via _tsch_removeCells and the allocation record is
cleared.  In every case both motes' pendingTransaction becomes None. -/
def rxConfirmation (selfId neighId : Nat) (st : ConfState) (data0 : List Nat) :
    ConfState :=
  let st1 :=
    if data0.length = st.cellsAlloc.length then
      if data0 ≠ st.cellsAlloc then
        { st with
            selfSched := tsch_removeCells neighId
              (confRemoveList st.selfSched st.neighSched neighId
                (data0 ++ st.cellsAlloc).dedup) st.selfSched
            neighSched := tsch_removeCells selfId
              (confRemoveList st.neighSched st.selfSched selfId
                (data0 ++ st.cellsAlloc).dedup) st.neighSched
            cellsAlloc := [] }
      else st
    else st
  { st1 with selfPending := none, neighPending := none }

/-- The state used to refute C1: responder mote 2 installed RX cells for initiator
mote 1 at slots 3 and 5, but mote 1 only confirmed slot 3 (slot 5 was already occupied
in its schedule by a cell to mote 9, so top_new_handle_request_ok filtered it out). -/
def c1State : ConfState :=
  { selfSched := [(3, { ch := 0, dir := Dir.RX, neighbor := some 1 }),
                  (5, { ch := 0, dir := Dir.RX, neighbor := some 1 })]
    neighSched := [(3, { ch := 0, dir := Dir.TX, neighbor := some 2 }),
                   (5, { ch := 4, dir := Dir.TX, neighbor := some 9 })]
    cellsAlloc := [3, 5]
    selfPending := some { kind := TxKind.parentAdds, neighbor := 1,
                          cells := some [(3, 0, Dir.RX), (5, 0, Dir.RX)],
                          sequenceNum := 2 }
    neighPending := some { kind := TxKind.moteRequest, neighbor := 2, cells := none,
                           sequenceNum := 2 } }

/-- C1 counterexample: the confirmed list [3] is shorter than the recorded allocation
[3, 5], so the reconciliation of rxDone's confirmation branch is skipped entirely:
after the confirmation the responder still holds the unconfirmed RX cell at slot 5
pointing at mote 1 while the initiator's slot 5 belongs to mote 9, so the installed
cell that the initiator did not confirm is NOT removed and the two motes' cell sets
for the transaction differ — although both pendingTransaction fields are cleared. -/
theorem C1_confirmation_counterexample :
    (5 ∈ c1State.cellsAlloc ∧ 5 ∉ [3]) ∧
    mapLookup (rxConfirmation 2 1 c1State [3]).selfSched 5
      = some { ch := 0, dir := Dir.RX, neighbor := some 1 } ∧
    mapLookup (rxConfirmation 2 1 c1State [3]).neighSched 5
      = some { ch := 4, dir := Dir.TX, neighbor := some 9 } ∧
    (9 : Nat) ≠ 2 ∧
    (rxConfirmation 2 1 c1State [3]).selfPending = none ∧
    (rxConfirmation 2 1 c1State [3]).neighPending = none := by
  decide

/-- C1 (amended): on 'confirmation' both motes' pendingTransaction is always cleared,
but the cell reconciliation runs only when the confirmed list has exactly the same
length as the responder's recorded allocation: in that case (when the two lists
differ) every slot of either list held by exactly one side for the peer mote is
removed from that side; when the lengths differ, both schedules are left untouched, so
cells installed for the transaction on one side only persist. -/
theorem C1_confirmation_amended (selfId neighId : Nat) (st : ConfState)
    (data0 : List Nat) :
    (rxConfirmation selfId neighId st data0).selfPending = none ∧
    (rxConfirmation selfId neighId st data0).neighPending = none ∧
    (data0.length ≠ st.cellsAlloc.length →
      (rxConfirmation selfId neighId st data0).selfSched = st.selfSched ∧
      (rxConfirmation selfId neighId st data0).neighSched = st.neighSched) ∧
    (data0.length = st.cellsAlloc.length → data0 ≠ st.cellsAlloc →
      ∀ ts ∈ data0 ++ st.cellsAlloc,
        ((mapLookup st.neighSched ts).isNone →
          ∀ c : Cell,
            mapLookup (rxConfirmation selfId neighId st data0).selfSched ts = some c →
            c.neighbor ≠ some neighId) ∧
        ((mapLookup st.selfSched ts).isNone →
          ∀ c : Cell,
            mapLookup (rxConfirmation selfId neighId st data0).neighSched ts = some c →
            c.neighbor ≠ some selfId)) := by
  refine ⟨rfl, rfl, ?_, ?_⟩
  · intro h
    constructor
    · simp [rxConfirmation, h]
    · simp [rxConfirmation, h]
  · intro hlen hne ts hts
    have hself : (rxConfirmation selfId neighId st data0).selfSched
        = tsch_removeCells neighId
            (confRemoveList st.selfSched st.neighSched neighId
              (data0 ++ st.cellsAlloc).dedup) st.selfSched := by
      simp [rxConfirmation, hlen, hne]
    have hneigh : (rxConfirmation selfId neighId st data0).neighSched
        = tsch_removeCells selfId
            (confRemoveList st.neighSched st.selfSched selfId
              (data0 ++ st.cellsAlloc).dedup) st.neighSched := by
      simp [rxConfirmation, hlen, hne]
    have hdedup : ts ∈ (data0 ++ st.cellsAlloc).dedup := List.mem_dedup.mpr hts
    constructor
    · intro hnone c hc
      rw [hself] at hc
      rcases lookup_removeCells_cases neighId
          (confRemoveList st.selfSched st.neighSched neighId
            (data0 ++ st.cellsAlloc).dedup) st.selfSched ts with hcase | hcase
      · intro hcn
        have hbefore : mapLookup st.selfSched ts = some c := hcase ▸ hc
        have hmem2 : ts ∈ confRemoveList st.selfSched st.neighSched neighId
            (data0 ++ st.cellsAlloc).dedup := by
          unfold confRemoveList
          refine List.mem_filter.mpr ⟨hdedup, ?_⟩
          simp [hbefore, hnone, hcn]
        exact removeCells_clears neighId _ st.selfSched ts hmem2 c hc hcn
      · rw [hcase] at hc
        exact Option.noConfusion hc
    · intro hnone c hc
      rw [hneigh] at hc
      rcases lookup_removeCells_cases selfId
          (confRemoveList st.neighSched st.selfSched selfId
            (data0 ++ st.cellsAlloc).dedup) st.neighSched ts with hcase | hcase
      · intro hcn
        have hbefore : mapLookup st.neighSched ts = some c := hcase ▸ hc
        have hmem2 : ts ∈ confRemoveList st.neighSched st.selfSched selfId
            (data0 ++ st.cellsAlloc).dedup := by
          unfold confRemoveList
          refine List.mem_filter.mpr ⟨hdedup, ?_⟩
          simp [hbefore, hnone, hcn]
        exact removeCells_clears selfId _ st.neighSched ts hmem2 c hc hcn
      · rw [hcase] at hc
        exact Option.noConfusion hc

/-- The state used to witness C1's amended theorem: the responder recorded slot 3 but
the initiator confirmed slot 4 (equal lengths, different lists), each present on only
one side. -/
def c1WitState : ConfState :=
  { selfSched := [(3, { ch := 0, dir := Dir.RX, neighbor := some 1 })]
    neighSched := [(4, { ch := 0, dir := Dir.TX, neighbor := some 2 })]
    cellsAlloc := [3]
    selfPending := some { kind := TxKind.parentAdds, neighbor := 1,
                          cells := some [(3, 0, Dir.RX)], sequenceNum := 6 }
    neighPending := some { kind := TxKind.moteRequest, neighbor := 2, cells := none,
                           sequenceNum := 6 } }

/-- C1 witness: the amended theorem applied at c1WitState with the confirmed list [4],
discharging the equal-length and different-list hypotheses concretely. -/
theorem C1_confirmation_amended_witness :
    (rxConfirmation 2 1 c1WitState [4]).selfPending = none ∧
    [4].length = c1WitState.cellsAlloc.length ∧
    [4] ≠ c1WitState.cellsAlloc ∧
    (∀ ts ∈ [4] ++ c1WitState.cellsAlloc,
      ((mapLookup c1WitState.neighSched ts).isNone →
        ∀ c : Cell,
          mapLookup (rxConfirmation 2 1 c1WitState [4]).selfSched ts = some c →
          c.neighbor ≠ some 1) ∧
      ((mapLookup c1WitState.selfSched ts).isNone →
        ∀ c : Cell,
          mapLookup (rxConfirmation 2 1 c1WitState [4]).neighSched ts = some c →
          c.neighbor ≠ some 2)) :=
  ⟨(C1_confirmation_amended 2 1 c1WitState [4]).1, by decide, by decide,
    (C1_confirmation_amended 2 1 c1WitState [4]).2.2.2 (by decide) (by decide)⟩

end TischSim
